import Mathlib

set_option maxRecDepth 4000

/-!
Shallow embedding of `src/plotagem_processos/main.py`, a Streamlit system
monitor.  Timestamps (`pd.Timestamp.now()`) are modelled as natural numbers,
metric values (ints and Python floats) as rationals.  A metric series
(`st.session_state.*_data`, a single-column pandas DataFrame indexed by
timestamp) is modelled as a list of (timestamp, value) pairs in row order.
-/

/-- Embedding of the pandas assignment `df.loc[t] = v` on a single-column
DataFrame: if some row already has index label `t`, every such row's value is
overwritten in place; otherwise a new row is appended at the end. -/
def locSet (t : ℕ) (v : ℚ) (s : List (ℕ × ℚ)) : List (ℕ × ℚ) :=
  if s.any (fun p => p.1 = t) then
    s.map (fun p => if p.1 = t then (p.1, v) else p)
  else
    s ++ [(t, v)]

/-- Embedding of `df.tail(n)`: keeps the last `n` rows (all rows when the
DataFrame has at most `n`). -/
def tailN (n : ℕ) (s : List (ℕ × ℚ)) : List (ℕ × ℚ) :=
  s.drop (s.length - n)

/-- One series update of the main loop (lines 194-203 of main.py):
`df.loc[current_time] = value` followed by `df = df.tail(chart_history)`. -/
def appendTrim (cap : ℕ) (t : ℕ) (v : ℚ) (s : List (ℕ × ℚ)) : List (ℕ × ℚ) :=
  tailN cap (locSet t v s)

/-- Folding a sequence of ticks over one series: each tick contributes a
(timestamp, value) pair and performs the loop's append-and-trim. -/
def runAppends (cap : ℕ) (ticks : List (ℕ × ℚ)) (s : List (ℕ × ℚ)) :
    List (ℕ × ℚ) :=
  ticks.foldl (fun acc tv => appendTrim cap tv.1 tv.2 acc) s

/-- The three rolling series held in `st.session_state`. -/
structure SessionState where
  process_data : List (ℕ × ℚ)
  cpu_data : List (ℕ × ℚ)
  ram_data : List (ℕ × ℚ)
deriving DecidableEq

/-- Initial session state (lines 142-145 of main.py): the three DataFrames
are created empty. -/
def initialState : SessionState := ⟨[], [], []⟩

/-- One iteration of the main `while True` loop (lines 185-203 of main.py),
with the three metric reads injected as fallible inputs.  The source reads
`get_process_count()`, `get_cpu_usage()` and `get_memory_usage()` in that
order (lines 189-191) with no `try`/`except`; a raised exception is modelled
by `Except.error`, which propagates out of the iteration before any
DataFrame update (lines 194-203) happens. -/
def tick (chart_history : ℕ) (current_time : ℕ)
    (pc cpu ram : Except String ℚ) (st : SessionState) :
    Except String SessionState := do
  let process_count ← pc
  let cpu_usage ← cpu
  let ram_usage ← ram
  pure
    { process_data := appendTrim chart_history current_time process_count
        st.process_data
      cpu_data := appendTrim chart_history current_time cpu_usage st.cpu_data
      ram_data := appendTrim chart_history current_time ram_usage st.ram_data }

/-- Minimum of a pandas column (`df[col].min()`), defined on nonempty lists;
the empty case is given a dummy value 0 and is outside every claim. -/
def listMin : List ℚ → ℚ
  | [] => 0
  | x :: xs => xs.foldl min x

/-- Maximum of a pandas column (`df[col].max()`). -/
def listMax : List ℚ → ℚ
  | [] => 0
  | x :: xs => xs.foldl max x

/-- The y-axis range computed by `create_plot` (lines 84-93 of main.py):
`y_min`, `y_max`, `y_range = y_max - y_min`,
`padding = y_range * 0.1 if y_range > 0 else 1`, and the layout range
`[max(0, y_min - padding), y_max + padding]`.  Python float arithmetic is
modelled by exact rational arithmetic. -/
def createPlotRange (ys : List ℚ) : ℚ × ℚ :=
  let y_min := listMin ys
  let y_max := listMax ys
  let y_range := y_max - y_min
  let padding := if y_range > 0 then y_range * (1 / 10) else 1
  (max 0 (y_min - padding), y_max + padding)

/-- Floor of a rational, computed directly as the floor division of the
numerator by the denominator. -/
def ratFloor (q : ℚ) : ℤ :=
  q.num.fdiv q.den

/-- Rounding to the nearest integer with ties to even, the rounding used by
Python's fixed-point float formatting. -/
def roundHalfEven (q : ℚ) : ℤ :=
  let f := ratFloor q
  let r := q - f
  if r < 1 / 2 then f
  else if 1 / 2 < r then f + 1
  else if f % 2 = 0 then f else f + 1

/-- Embedding of the Python f-string `f"{x:.1f}"`: one decimal place. -/
def fmt1 (q : ℚ) : String :=
  let n := roundHalfEven (q * 10)
  let sign := if n < 0 then "-" else ""
  sign ++ toString (n.natAbs / 10) ++ "." ++ toString (n.natAbs % 10)

/-- Embedding of `format_bytes` (lines 62-68 of main.py).  The Python
`for unit in ["MB", "GB", "TB"]` loop is unrolled: at each step the current
value is compared with 1024 and either rendered with the current unit or
divided by 1024; if all three checks fail the final fallthrough renders the
thrice-divided value as TB.  Division by 1024 is exact scaling for floats,
so rational arithmetic is faithful. -/
def format_bytes (q : ℚ) : String :=
  if q < 1024 then fmt1 q ++ " MB"
  else if q / 1024 < 1024 then fmt1 (q / 1024) ++ " GB"
  else if q / 1024 / 1024 < 1024 then fmt1 (q / 1024 / 1024) ++ " TB"
  else fmt1 (q / 1024 / 1024 / 1024) ++ " TB"

/-- Blocking duration, in seconds, of `get_cpu_usage` (lines 54-55 of
main.py): `psutil.cpu_percent(interval=1)` blocks for its 1-second sampling
window. -/
def cpuSamplingWindow : ℕ := 1

/-- Durations, in seconds, of the blocking operations executed by one
iteration of the main loop, in source order: the `psutil.cpu_percent`
sampling window inside `get_cpu_usage` (line 55) and `time.sleep
(update_interval)` (line 234).  They run sequentially on the single thread. -/
def tickBlockingOps (update_interval : ℕ) : List ℕ :=
  [cpuSamplingWindow, update_interval]

/-- Effective tick period of the loop: the sum of the sequential blocking
durations in one iteration (other per-tick work is not modelled). -/
def tickPeriod (update_interval : ℕ) : ℕ :=
  (tickBlockingOps update_interval).sum

/-! Helper lemmas about the series operations. -/

theorem length_tailN_le (n : ℕ) (s : List (ℕ × ℚ)) : (tailN n s).length ≤ n := by
  simp only [tailN, List.length_drop]
  omega

theorem tailN_of_le (n : ℕ) (s : List (ℕ × ℚ)) (h : s.length ≤ n) :
    tailN n s = s := by
  simp [tailN, Nat.sub_eq_zero_of_le h]

theorem length_appendTrim_le (cap t : ℕ) (v : ℚ) (s : List (ℕ × ℚ)) :
    (appendTrim cap t v s).length ≤ cap :=
  length_tailN_le cap (locSet t v s)

theorem mem_locSet_fst (t : ℕ) (v : ℚ) (s : List (ℕ × ℚ)) (x : ℕ × ℚ)
    (hx : x ∈ locSet t v s) : x.1 = t ∨ ∃ y ∈ s, x.1 = y.1 := by
  unfold locSet at hx
  split at hx
  · obtain ⟨p, hp, hfx⟩ := List.mem_map.mp hx
    right
    refine ⟨p, hp, ?_⟩
    rw [← hfx]
    split <;> rfl
  · rcases List.mem_append.mp hx with h | h
    · exact Or.inr ⟨x, h, rfl⟩
    · left
      rw [List.mem_singleton.mp h]

theorem mem_appendTrim_fst (cap t : ℕ) (v : ℚ) (s : List (ℕ × ℚ)) (x : ℕ × ℚ)
    (hx : x ∈ appendTrim cap t v s) : x.1 = t ∨ ∃ y ∈ s, x.1 = y.1 :=
  mem_locSet_fst t v s x (List.drop_subset _ _ hx)

theorem pairwise_locSet (t : ℕ) (v : ℚ) (s : List (ℕ × ℚ))
    (hb : ∀ x ∈ s, x.1 ≤ t) (hs : s.Pairwise (fun a b => a.1 ≤ b.1)) :
    (locSet t v s).Pairwise (fun a b => a.1 ≤ b.1) := by
  unfold locSet
  split
  · refine hs.map _ (fun a b hab => ?_)
    have h1 : ((if a.1 = t then (a.1, v) else a)).1 = a.1 := by split <;> rfl
    have h2 : ((if b.1 = t then (b.1, v) else b)).1 = b.1 := by split <;> rfl
    rw [h1, h2]
    exact hab
  · rw [List.pairwise_append]
    refine ⟨hs, List.pairwise_singleton _ _, ?_⟩
    intro a ha b hb'
    rw [List.mem_singleton.mp hb']
    exact hb a ha

theorem pairwise_appendTrim (cap t : ℕ) (v : ℚ) (s : List (ℕ × ℚ))
    (hb : ∀ x ∈ s, x.1 ≤ t) (hs : s.Pairwise (fun a b => a.1 ≤ b.1)) :
    (appendTrim cap t v s).Pairwise (fun a b => a.1 ≤ b.1) :=
  (pairwise_locSet t v s hb hs).sublist (List.drop_sublist _ _)

theorem runAppends_cons (cap : ℕ) (tv : ℕ × ℚ) (rest : List (ℕ × ℚ))
    (s : List (ℕ × ℚ)) :
    runAppends cap (tv :: rest) s = runAppends cap rest (appendTrim cap tv.1 tv.2 s) := by
  simp [runAppends]

theorem runAppends_pairwise_aux (cap : ℕ) (ticks : List (ℕ × ℚ)) :
    ∀ s : List (ℕ × ℚ),
      ticks.Pairwise (fun a b => a.1 ≤ b.1) →
      s.Pairwise (fun a b => a.1 ≤ b.1) →
      (∀ x ∈ s, ∀ tk ∈ ticks, x.1 ≤ tk.1) →
      (runAppends cap ticks s).Pairwise (fun a b => a.1 ≤ b.1) := by
  induction ticks with
  | nil =>
    intro s _ hs _
    simpa [runAppends] using hs
  | cons tv rest ih =>
    intro s hticks hs hb
    rw [List.pairwise_cons] at hticks
    obtain ⟨hhead, hrest⟩ := hticks
    have hstep : (appendTrim cap tv.1 tv.2 s).Pairwise (fun a b => a.1 ≤ b.1) :=
      pairwise_appendTrim cap tv.1 tv.2 s
        (fun x hx => hb x hx tv (List.mem_cons_self _ _)) hs
    have hb' : ∀ x ∈ appendTrim cap tv.1 tv.2 s, ∀ tk ∈ rest, x.1 ≤ tk.1 := by
      intro x hx tk htk
      rcases mem_appendTrim_fst cap tv.1 tv.2 s x hx with h | ⟨y, hy, hxy⟩
      · rw [h]
        exact hhead tk htk
      · rw [hxy]
        exact hb y hy tk (List.mem_cons_of_mem _ htk)
    rw [runAppends_cons]
    exact ih _ hrest hstep hb'

theorem runAppends_length_aux (cap : ℕ) (ticks : List (ℕ × ℚ)) :
    ∀ s : List (ℕ × ℚ), (runAppends cap ticks s).length ≤ max s.length cap := by
  induction ticks with
  | nil =>
    intro s
    simp [runAppends]
  | cons tv rest ih =>
    intro s
    rw [runAppends_cons]
    have h1 : (appendTrim cap tv.1 tv.2 s).length ≤ cap :=
      length_appendTrim_le cap tv.1 tv.2 s
    have h2 := ih (appendTrim cap tv.1 tv.2 s)
    omega

/-! Claim theorems about the rolling series. -/

/-- C2: append-and-trim is FIFO.  For a series at capacity, appending a
sample with a fresh timestamp and trimming keeps exactly the capacity most
recent samples in insertion order, evicting only the oldest; concretely,
with capacity 3 the tick values 100, 101, 102 yield the snapshot
[100, 101, 102] and a fourth tick with 103 yields [101, 102, 103]. -/
theorem appendTrim_fifo (cap t : ℕ) (v : ℚ) (s : List (ℕ × ℚ))
    (hcap : 0 < cap) (hlen : s.length = cap) (hfresh : ∀ p ∈ s, p.1 ≠ t) :
    appendTrim cap t v s = s.tail ++ [(t, v)] ∧
      runAppends 3 [(0, 100), (1, 101), (2, 102)] [] =
        [(0, 100), (1, 101), (2, 102)] ∧
      runAppends 3 [(0, 100), (1, 101), (2, 102), (3, 103)] [] =
        [(1, 101), (2, 102), (3, 103)] := by
  refine ⟨?_, by decide, by decide⟩
  have hany : s.any (fun p => p.1 = t) = false := by
    rw [List.any_eq_false]
    intro p hp
    simpa using hfresh p hp
  unfold appendTrim locSet
  rw [hany]
  simp only [Bool.false_eq_true, if_false, tailN, List.length_append,
    List.length_singleton, hlen]
  have hdrop : cap + 1 - cap = 1 := by omega
  rw [hdrop, List.drop_append_of_le_length (by omega), List.drop_one]

/-- Witness for C2 at a concrete input: a series of length 1 at capacity 1
with a fresh timestamp. -/
theorem appendTrim_fifo_witness :
    appendTrim 1 1 6 [(0, 5)] = [(0, 5)].tail ++ [(1, 6)] ∧
      runAppends 3 [(0, 100), (1, 101), (2, 102)] [] =
        [(0, 100), (1, 101), (2, 102)] ∧
      runAppends 3 [(0, 100), (1, 101), (2, 102), (3, 103)] [] =
        [(1, 101), (2, 102), (3, 103)] :=
  appendTrim_fifo 1 1 6 [(0, 5)] (by decide) (by decide) (by decide)

/-- C3: after any sequence of tick appends with non-decreasing tick
timestamps, starting from the empty series, the series length never exceeds
the configured capacity and the stored timestamps are non-decreasing. -/
theorem runAppends_bounded_sorted (cap : ℕ) (ticks : List (ℕ × ℚ))
    (h : ticks.Chain' (fun a b => a.1 ≤ b.1)) :
    (runAppends cap ticks []).length ≤ cap ∧
      (runAppends cap ticks []).Pairwise (fun a b => a.1 ≤ b.1) := by
  haveI : IsTrans (ℕ × ℚ) (fun a b => a.1 ≤ b.1) :=
    ⟨fun a b c hab hbc => le_trans hab hbc⟩
  have hp : ticks.Pairwise (fun a b => a.1 ≤ b.1) :=
    List.chain'_iff_pairwise.mp h
  constructor
  · have hlen := runAppends_length_aux cap ticks []
    simpa using hlen
  · refine runAppends_pairwise_aux cap ticks [] hp List.Pairwise.nil ?_
    intro x hx
    exact absurd hx (List.not_mem_nil x)

/-- Witness for C3 at a concrete input: two ticks with increasing
timestamps at capacity 3. -/
theorem runAppends_bounded_sorted_witness :
    (runAppends 3 [(0, 100), (1, 101)] []).length ≤ 3 ∧
      (runAppends 3 [(0, 100), (1, 101)] []).Pairwise (fun a b => a.1 ≤ b.1) :=
  runAppends_bounded_sorted 3 [(0, 100), (1, 101)]
    (by simp [List.chain'_cons, List.chain'_singleton])

/-- C7: reducing the capacity to k on a series currently holding more than
k samples makes the next trim produce a series of length exactly k holding
the k most recent samples in order (a suffix of the original series). -/
theorem tailN_reduced_capacity (k : ℕ) (s : List (ℕ × ℚ)) (h : k < s.length) :
    (tailN k s).length = k ∧ tailN k s = s.drop (s.length - k) ∧
      tailN k s <:+ s := by
  refine ⟨?_, rfl, List.drop_suffix _ _⟩
  simp only [tailN, List.length_drop]
  omega

/-- Witness for C7 at a concrete input: capacity reduced to 2 on a series
of length 3. -/
theorem tailN_reduced_capacity_witness :
    (tailN 2 [(0, 5), (1, 6), (2, 7)]).length = 2 ∧
      tailN 2 [(0, 5), (1, 6), (2, 7)] =
        [(0, 5), (1, 6), (2, 7)].drop ([(0, 5), (1, 6), (2, 7)].length - 2) ∧
      tailN 2 [(0, 5), (1, 6), (2, 7)] <:+ [(0, 5), (1, 6), (2, 7)] :=
  tailN_reduced_capacity 2 [(0, 5), (1, 6), (2, 7)] (by decide)

/-- C10: when a tick's timestamp equals one already present in a series
that is within capacity, the pandas loc-assignment overwrites the existing
sample's value in place: the series keeps its length and its timestamps,
and no eviction happens. -/
theorem appendTrim_dup_overwrites (cap t : ℕ) (v : ℚ) (s : List (ℕ × ℚ))
    (hmem : ∃ p ∈ s, p.1 = t) (hlen : s.length ≤ cap) :
    appendTrim cap t v s = s.map (fun p => if p.1 = t then (p.1, v) else p) ∧
      (appendTrim cap t v s).length = s.length ∧
      (appendTrim cap t v s).map Prod.fst = s.map Prod.fst := by
  have hany : s.any (fun p => p.1 = t) = true := by
    rw [List.any_eq_true]
    obtain ⟨p, hp, hpt⟩ := hmem
    exact ⟨p, hp, by simpa using hpt⟩
  have hmain : appendTrim cap t v s =
      s.map (fun p => if p.1 = t then (p.1, v) else p) := by
    unfold appendTrim locSet
    rw [hany]
    simp only [if_true]
    exact tailN_of_le _ _ (by simpa using hlen)
  refine ⟨hmain, ?_, ?_⟩
  · rw [hmain, List.length_map]
  · rw [hmain, List.map_map]
    refine List.map_congr_left ?_
    intro p _
    simp only [Function.comp_apply]
    split <;> rfl

/-- Witness for C10 at a concrete input: timestamp 1 occurs in a series of
length 2 with capacity 3. -/
theorem appendTrim_dup_overwrites_witness :
    appendTrim 3 1 9 [(0, 5), (1, 6)] =
      [(0, 5), (1, 6)].map (fun p => if p.1 = 1 then (p.1, 9) else p) ∧
      (appendTrim 3 1 9 [(0, 5), (1, 6)]).length = [(0, 5), (1, 6)].length ∧
      (appendTrim 3 1 9 [(0, 5), (1, 6)]).map Prod.fst =
        [(0, 5), (1, 6)].map Prod.fst :=
  appendTrim_dup_overwrites 3 1 9 [(0, 5), (1, 6)] ⟨(1, 6), by decide, rfl⟩
    (by decide)

/-! Claim theorems about the sampler loop's error behaviour and timing. -/

/-- C1 counterexample: with the process and memory reads succeeding (100
processes, 2048 MB) and the CPU read failing, the loop iteration evaluates
to the propagated error: the other two series are NOT appended for that
tick and the iteration aborts, contradicting the claimed partial-failure
tolerance (main.py wraps no metric read in try/except). -/
theorem tick_failure_counterexample :
    tick 30 0 (Except.ok 100) (Except.error "MetricUnavailable")
        (Except.ok 2048) initialState = Except.error "MetricUnavailable" ∧
      tick 30 0 (Except.ok 100) (Except.error "MetricUnavailable")
        (Except.ok 2048) initialState ≠
        Except.ok
          { process_data := appendTrim 30 0 100 initialState.process_data
            cpu_data := initialState.cpu_data
            ram_data := appendTrim 30 0 2048 initialState.ram_data } := by
  have h0 : tick 30 0 (Except.ok 100) (Except.error "MetricUnavailable")
      (Except.ok 2048) initialState = Except.error "MetricUnavailable" := rfl
  refine ⟨h0, ?_⟩
  intro h
  rw [h0] at h
  exact Except.noConfusion h

/-- C1 amended: a metric-read failure during a tick is not tolerated: the
error propagates out of the iteration in read order (process count, then
CPU, then memory), no metric's series is appended for that tick, and the
iteration aborts with the error. -/
theorem tick_error_aborts (cap t : ℕ) (e : String) (a b : ℚ)
    (cpu ram : Except String ℚ) (st : SessionState) :
    tick cap t (Except.error e) cpu ram st = Except.error e ∧
      tick cap t (Except.ok a) (Except.error e) ram st = Except.error e ∧
      tick cap t (Except.ok a) (Except.ok b) (Except.error e) st =
        Except.error e :=
  ⟨rfl, rfl, rfl⟩

/-- C8 counterexample: with the default configured interval of 10 seconds,
the modelled tick period is 11 seconds (the 1-second CPU sampling window
plus the full sleep), not max(10, 1) = 10 as the claim states. -/
theorem tickPeriod_counterexample :
    tickPeriod 10 = 11 ∧ tickPeriod 10 ≠ max 10 cpuSamplingWindow := by
  constructor <;> decide

/-- C8 amended: the loop's effective tick period is the SUM of the
configured interval and the CPU sampling window, because `time.sleep`
always sleeps the full interval after the blocking CPU call; for every
allowed interval (at least 1 second) this strictly exceeds
max(configuredInterval, samplingWindow). -/
theorem tickPeriod_sum (i : ℕ) (h1 : 1 ≤ i) :
    tickPeriod i = i + cpuSamplingWindow ∧
      max i cpuSamplingWindow < tickPeriod i := by
  unfold tickPeriod tickBlockingOps cpuSamplingWindow
  simp only [List.sum_cons, List.sum_nil]
  omega

/-- Witness for the amended C8 at the default interval of 10 seconds. -/
theorem tickPeriod_sum_witness :
    tickPeriod 10 = 10 + cpuSamplingWindow ∧
      max 10 cpuSamplingWindow < tickPeriod 10 :=
  tickPeriod_sum 10 (by decide)

/-! Helper lemmas about the unit-scaling branches of format_bytes. -/

theorem format_bytes_mb (q : ℚ) (h : q < 1024) :
    format_bytes q = fmt1 q ++ " MB" := by
  unfold format_bytes
  rw [if_pos h]

theorem format_bytes_gb (q : ℚ) (h1 : 1024 ≤ q) (h2 : q < 1024 ^ 2) :
    format_bytes q = fmt1 (q / 1024) ++ " GB" := by
  unfold format_bytes
  have e2 : (1024 : ℚ) ^ 2 = 1024 * 1024 := by norm_num
  have hq : q / 1024 < 1024 := by
    rw [div_lt_iff₀ (by norm_num : (0 : ℚ) < 1024)]
    linarith
  rw [if_neg (not_lt.mpr h1), if_pos hq]

theorem format_bytes_tb (q : ℚ) (h1 : 1024 ^ 2 ≤ q) (h2 : q < 1024 ^ 3) :
    format_bytes q = fmt1 (q / 1024 / 1024) ++ " TB" := by
  unfold format_bytes
  have e2 : (1024 : ℚ) ^ 2 = 1024 * 1024 := by norm_num
  have e3 : (1024 : ℚ) ^ 3 = 1024 * (1024 * 1024) := by norm_num
  have h0 : ¬q < 1024 :=
    not_lt.mpr (le_trans (by norm_num : (1024 : ℚ) ≤ 1024 ^ 2) h1)
  have hgb : ¬q / 1024 < 1024 := by
    rw [not_lt, le_div_iff₀ (by norm_num : (0 : ℚ) < 1024)]
    linarith
  have htb : q / 1024 / 1024 < 1024 := by
    rw [div_div, div_lt_iff₀ (by norm_num : (0 : ℚ) < 1024 * 1024)]
    linarith
  rw [if_neg h0, if_neg hgb, if_pos htb]

theorem format_bytes_tb_fallthrough (q : ℚ) (h : 1024 ^ 3 ≤ q) :
    format_bytes q = fmt1 (q / 1024 / 1024 / 1024) ++ " TB" := by
  unfold format_bytes
  have e2 : (1024 : ℚ) ^ 2 = 1024 * 1024 := by norm_num
  have e3 : (1024 : ℚ) ^ 3 = 1024 * (1024 * 1024) := by norm_num
  have h0 : ¬q < 1024 :=
    not_lt.mpr (le_trans (by norm_num : (1024 : ℚ) ≤ 1024 ^ 3) h)
  have hgb : ¬q / 1024 < 1024 := by
    rw [not_lt, le_div_iff₀ (by norm_num : (0 : ℚ) < 1024)]
    nlinarith
  have htb : ¬q / 1024 / 1024 < 1024 := by
    rw [not_lt, div_div, le_div_iff₀ (by norm_num : (0 : ℚ) < 1024 * 1024)]
    linarith
  rw [if_neg h0, if_neg hgb, if_neg htb]

/-- C5: format_bytes satisfies the reference vectors
format_bytes(500) = "500.0 MB", format_bytes(2048) = "2.0 GB",
format_bytes(2048*1024) = "2.0 TB", and in general scales by repeatedly
dividing by 1024 through the units MB, GB and TB, rendering the scaled
value with one decimal place. -/
theorem format_bytes_vectors (q : ℚ) :
    format_bytes 500 = "500.0 MB" ∧ format_bytes 2048 = "2.0 GB" ∧
      format_bytes (2048 * 1024) = "2.0 TB" ∧
      format_bytes q =
        (if q < 1024 then fmt1 q ++ " MB"
          else if q < 1024 ^ 2 then fmt1 (q / 1024) ++ " GB"
          else if q < 1024 ^ 3 then fmt1 (q / 1024 / 1024) ++ " TB"
          else fmt1 (q / 1024 / 1024 / 1024) ++ " TB") := by
  refine ⟨?_, ?_, ?_, ?_⟩
  · norm_num [format_bytes, fmt1, roundHalfEven, ratFloor]; rfl
  · norm_num [format_bytes, fmt1, roundHalfEven, ratFloor]; rfl
  · norm_num [format_bytes, fmt1, roundHalfEven, ratFloor]; rfl
  · by_cases hq1 : q < 1024
    · rw [if_pos hq1, format_bytes_mb q hq1]
    · by_cases hq2 : q < 1024 ^ 2
      · rw [if_neg hq1, if_pos hq2, format_bytes_gb q (not_lt.mp hq1) hq2]
      · by_cases hq3 : q < 1024 ^ 3
        · rw [if_neg hq1, if_neg hq2, if_pos hq3,
            format_bytes_tb q (not_lt.mp hq2) hq3]
        · rw [if_neg hq1, if_neg hq2, if_neg hq3,
            format_bytes_tb_fallthrough q (not_lt.mp hq3)]

/-- C9: format_bytes is total on all rational inputs and always yields a
string tagged MB, GB or TB; every input below 1024 (including zero and
negative values) is rendered directly in MB, and every input of 1024 cubed
or more is divided by 1024 cubed and rendered in TB by the final
fallthrough return. -/
theorem format_bytes_total (q : ℚ) :
    (q < 1024 → format_bytes q = fmt1 q ++ " MB") ∧
      (1024 ^ 3 ≤ q →
        format_bytes q = fmt1 (q / 1024 / 1024 / 1024) ++ " TB") ∧
      ∃ s, format_bytes q = s ++ " MB" ∨ format_bytes q = s ++ " GB" ∨
        format_bytes q = s ++ " TB" := by
  refine ⟨format_bytes_mb q, format_bytes_tb_fallthrough q, ?_⟩
  by_cases hq1 : q < 1024
  · exact ⟨fmt1 q, Or.inl (format_bytes_mb q hq1)⟩
  · by_cases hq2 : q < 1024 ^ 2
    · exact ⟨fmt1 (q / 1024),
        Or.inr (Or.inl (format_bytes_gb q (not_lt.mp hq1) hq2))⟩
    · by_cases hq3 : q < 1024 ^ 3
      · exact ⟨fmt1 (q / 1024 / 1024),
          Or.inr (Or.inr (format_bytes_tb q (not_lt.mp hq2) hq3))⟩
      · exact ⟨fmt1 (q / 1024 / 1024 / 1024),
          Or.inr (Or.inr (format_bytes_tb_fallthrough q (not_lt.mp hq3)))⟩

/-- Witness for C9 at concrete inputs: a negative input is rendered in MB,
and an input of exactly 1024 cubed reaches the fallthrough TB return. -/
theorem format_bytes_total_witness :
    format_bytes (-5) = fmt1 (-5) ++ " MB" ∧
      format_bytes (1024 ^ 3) =
        fmt1 (1024 ^ 3 / 1024 / 1024 / 1024) ++ " TB" :=
  ⟨(format_bytes_total (-5)).1 (by norm_num),
    (format_bytes_total (1024 ^ 3)).2.1 (by norm_num)⟩

/-! Helper lemmas about the minimum and maximum of a constant column. -/

theorem foldl_min_const (v : ℚ) (xs : List ℚ) :
    ∀ acc : ℚ, (∀ y ∈ xs, y = v) → acc = v → xs.foldl min acc = v := by
  induction xs with
  | nil =>
    intro acc _ hacc
    simpa using hacc
  | cons y ys ih =>
    intro acc hall hacc
    rw [List.foldl_cons]
    refine ih _ (fun z hz => hall z (List.mem_cons_of_mem _ hz)) ?_
    rw [hacc, hall y (List.mem_cons_self _ _), min_self]

theorem foldl_max_const (v : ℚ) (xs : List ℚ) :
    ∀ acc : ℚ, (∀ y ∈ xs, y = v) → acc = v → xs.foldl max acc = v := by
  induction xs with
  | nil =>
    intro acc _ hacc
    simpa using hacc
  | cons y ys ih =>
    intro acc hall hacc
    rw [List.foldl_cons]
    refine ih _ (fun z hz => hall z (List.mem_cons_of_mem _ hz)) ?_
    rw [hacc, hall y (List.mem_cons_self _ _), max_self]

theorem listMin_const (ys : List ℚ) (v : ℚ) (hne : ys ≠ [])
    (hconst : ∀ y ∈ ys, y = v) : listMin ys = v := by
  obtain ⟨x, xs, rfl⟩ := List.exists_cons_of_ne_nil hne
  unfold listMin
  exact foldl_min_const v xs x
    (fun z hz => hconst z (List.mem_cons_of_mem _ hz))
    (hconst x (List.mem_cons_self _ _))

theorem listMax_const (ys : List ℚ) (v : ℚ) (hne : ys ≠ [])
    (hconst : ∀ y ∈ ys, y = v) : listMax ys = v := by
  obtain ⟨x, xs, rfl⟩ := List.exists_cons_of_ne_nil hne
  unfold listMax
  exact foldl_max_const v xs x
    (fun z hz => hconst z (List.mem_cons_of_mem _ hz))
    (hconst x (List.mem_cons_self _ _))

/-- C4 counterexample: for the flat series [0, 0] of value 0 the computed
y-axis range is (0, 1), because the lower bound is clamped by max(0, ...);
it is not (0 - 1, 0 + 1) = (-1, 1) as the claim states for every constant
series. -/
theorem createPlotRange_flat_counterexample :
    createPlotRange [0, 0] = (0, 1) ∧
      createPlotRange [0, 0] ≠ ((0 : ℚ) - 1, (0 : ℚ) + 1) := by
  have h : createPlotRange [0, 0] = (0, 1) := by
    norm_num [createPlotRange, listMin, listMax]
  refine ⟨h, ?_⟩
  rw [h]
  intro hc
  rw [Prod.mk.injEq] at hc
  obtain ⟨hc1, _⟩ := hc
  norm_num at hc1

/-- C4 amended: for every nonempty constant series of value v the computed
y-axis range is exactly (max 0 (v - 1), v + 1); this equals (v - 1, v + 1)
whenever v is at least 1, but the lower bound is clamped to 0 below that. -/
theorem createPlotRange_flat (ys : List ℚ) (v : ℚ) (hne : ys ≠ [])
    (hconst : ∀ y ∈ ys, y = v) :
    createPlotRange ys = (max 0 (v - 1), v + 1) ∧
      (1 ≤ v → createPlotRange ys = (v - 1, v + 1)) := by
  have hmin : listMin ys = v := listMin_const ys v hne hconst
  have hmax : listMax ys = v := listMax_const ys v hne hconst
  have hmain : createPlotRange ys = (max 0 (v - 1), v + 1) := by
    simp only [createPlotRange]
    rw [hmin, hmax, sub_self]
    norm_num
  refine ⟨hmain, fun hv => ?_⟩
  rw [hmain, max_eq_right (by linarith : (0 : ℚ) ≤ v - 1)]

/-- Witness for the amended C4 at a concrete input: the flat series [5, 5]
yields the range (4, 6). -/
theorem createPlotRange_flat_witness :
    createPlotRange [5, 5] = (max 0 (5 - 1), 5 + 1) ∧
      createPlotRange [5, 5] = ((5 : ℚ) - 1, (5 : ℚ) + 1) :=
  ⟨(createPlotRange_flat [5, 5] 5 (List.cons_ne_nil _ _) (by decide)).1,
    (createPlotRange_flat [5, 5] 5 (List.cons_ne_nil _ _) (by decide)).2
      (by norm_num)⟩

/-- C6: for every nonempty non-constant series the computed y-axis range is
exactly (max 0 (min - 0.1 * range), max + 0.1 * range), where range is
max - min. -/
theorem createPlotRange_nonconst (ys : List ℚ) (_hne : ys ≠ [])
    (hlt : listMin ys < listMax ys) :
    createPlotRange ys =
      (max 0 (listMin ys - (listMax ys - listMin ys) * (1 / 10)),
        listMax ys + (listMax ys - listMin ys) * (1 / 10)) := by
  simp only [createPlotRange]
  rw [if_pos (sub_pos.mpr hlt)]

/-- Witness for C6 at a concrete input: the series [10, 20] yields the
range (9, 21). -/
theorem createPlotRange_nonconst_witness :
    createPlotRange [10, 20] =
      (max 0 (listMin [10, 20] - (listMax [10, 20] - listMin [10, 20]) * (1 / 10)),
        listMax [10, 20] + (listMax [10, 20] - listMin [10, 20]) * (1 / 10)) :=
  createPlotRange_nonconst [10, 20] (List.cons_ne_nil _ _)
    (by norm_num [listMin, listMax])
